import Mathlib

/-!
Shallow embedding of `gpiozero/source_tools.py` (the source-combinator library).

Every combinator in the source is a Python generator function: calling it executes
none of the body; the body runs lazily as the consumer pulls values.  We model a
combinator applied to a finite upstream sequence by its complete run trace: the
list of values it yields, paired with an optional terminal exception (`none`
means the run ended with ordinary exhaustion, i.e. the generator returned).
Numeric values are modelled as `ℚ`, following the data model (arbitrary-precision
reals, exact arithmetic); the concrete values in the claims are all exactly
representable.  Operations that raise in Python (division by zero,
`StopIteration` escaping a generator body, which PEP 479 turns into a
`RuntimeError`) are modelled explicitly as trace errors, since `ℚ` division by
zero would silently return 0.
-/

/-- Exceptions that the combinator bodies can raise during a run. -/
inductive PyErr : Type
  | zeroDivision
  | runtimeStopIteration
deriving DecidableEq

/-- A generator run trace: the values yielded, in order, and an optional
exception that ended the run (`none` = normal exhaustion). -/
abbrev GenTrace (α : Type) : Type := List α × Option PyErr

/-- Calling a Python generator function executes no body code and therefore
never raises: it immediately returns a generator object.  We model the
construction step as an `Except` that is always `ok`, carrying the run trace
that the returned generator will produce when driven to completion.  This makes
the distinction between a construction-time failure (`Except.error`, which the
source can never produce) and an error raised during the run (recorded inside
the trace) expressible. -/
def genCall {α : Type} (t : GenTrace α) : Except PyErr (GenTrace α) :=
  Except.ok t

/-- Model of `inverted(values)`: `for v in values: yield 1 - v`.  No operation
in the body can raise. -/
def inverted (values : List ℚ) : GenTrace ℚ :=
  (values.map (fun v => 1 - v), none)

/-- Model of `scaled(values, range_min, range_max, domain_min=0, domain_max=1)`:
computes `domain_size = domain_max - domain_min` and
`range_size = range_max - range_min`, then
`for v in values: yield (((v - domain_min) / domain_size) * range_size) + range_min`.
When `domain_size` is zero the division raises `ZeroDivisionError` at the first
loop iteration, before anything is yielded; if the upstream is empty the loop
body never runs and no error occurs. -/
def scaled (values : List ℚ) (range_min range_max : ℚ)
    (domain_min domain_max : ℚ) : GenTrace ℚ :=
  let domain_size := domain_max - domain_min
  let range_size := range_max - range_min
  if domain_size = 0 then
    match values with
    | [] => ([], none)
    | _ :: _ => ([], some PyErr.zeroDivision)
  else
    (values.map (fun v => (((v - domain_min) / domain_size) * range_size) + range_min), none)

/-- Model of Python `int(x)` on a rational: truncation toward zero. -/
def pyInt (q : ℚ) : ℤ :=
  if 0 ≤ q then ⌊q⌋ else ⌈q⌉

/-- Model of `quantized(values, steps, range_min=0, range_max=1)`:
`range_size = range_max - range_min`, then
`for v in scaled(values, 0, 1, range_min, range_max): yield ((int(v * steps) / steps) * range_size) + range_min`.
The inner `scaled` generator is pulled lazily, so an error it raises propagates
with nothing yielded; if `steps` is zero the division `int(...) / steps` raises
`ZeroDivisionError` at the first iteration. -/
def quantized (values : List ℚ) (steps : ℤ) (range_min range_max : ℚ) : GenTrace ℚ :=
  let range_size := range_max - range_min
  match scaled values 0 1 range_min range_max with
  | (ys, e) =>
    if steps = 0 ∧ ys ≠ [] then ([], some PyErr.zeroDivision)
    else (ys.map (fun v => (((pyInt (v * steps) : ℚ) / (steps : ℚ)) * range_size) + range_min), e)

/-- Length of the shortest member of a family of sequences, 0 for the empty
family: the number of tuples Python `zip(*seqs)` produces. -/
def shortestLen {α : Type} : List (List α) → Nat
  | [] => 0
  | l :: ls => ls.foldl (fun m x => min m x.length) l.length

/-- Fuel-indexed core of `zip(*seqs)`: produce `n` tuples, each collecting the
heads of all sequences, then step every sequence to its tail. -/
def zipNAux {α : Type} [Inhabited α] : Nat → List (List α) → List (List α)
  | 0, _ => []
  | n + 1, ls => ls.map List.headI :: zipNAux n (ls.map List.tail)

/-- Model of the builtin `zip(*seqs)` on finite sequences: pulls one element
from each sequence per step, stopping as soon as any sequence is exhausted,
hence producing exactly `shortestLen seqs` tuples; `zip()` of an empty family
produces nothing. -/
def zipN {α : Type} [Inhabited α] (ls : List (List α)) : List (List α) :=
  zipNAux (shortestLen ls) ls

/-- Model of `conjunction(*values)`: `for v in zip(*values): yield all(v)`.
No operation in the body can raise, in particular `zip()` of zero sequences is
simply empty. -/
def conjunction (inputs : List (List Bool)) : GenTrace Bool :=
  ((zipN inputs).map (fun v => v.all id), none)

/-- Model of `disjunction(*values)`: `for v in zip(*values): yield any(v)`. -/
def disjunction (inputs : List (List Bool)) : GenTrace Bool :=
  ((zipN inputs).map (fun v => v.any id), none)

/-- Model of `statistics.mean` on a finite sequence of rationals. -/
def mean (l : List ℚ) : ℚ :=
  l.sum / (l.length : ℚ)

/-- Model of `averaged(*values)`: `for v in zip(*values): yield mean(v)`.
Every tuple `zip` produces has one component per input sequence, so `mean`
is never applied to an empty tuple and the body cannot raise. -/
def averaged (inputs : List (List ℚ)) : GenTrace ℚ :=
  ((zipN inputs).map mean, none)

/-- Fill phase of `queued`: `q = []; it = iter(values); for i in range(qsize): q.append(next(it))`.
Returns the filled buffer together with the unconsumed remainder of the
upstream, or `none` when the upstream exhausts before `qsize` elements were
appended (the bare `next(it)` lets `StopIteration` escape). -/
def fillQueue {α : Type} : Nat → List α → Option (List α × List α)
  | 0, it => some ([], it)
  | _ + 1, [] => none
  | n + 1, v :: vs =>
    match fillQueue n vs with
    | none => none
    | some (q, rest) => some (v :: q, rest)

/-- Drain phase of `queued`, for a nonempty buffer `q` and current slot `i`:
`yield q[i]`, then try to refill slot `i` from the upstream remainder and
advance to slot `(i + 1) % len(q)`; on a failed refill (`StopIteration`) the
loop breaks immediately after the yield. -/
def drainQueue {α : Type} [Inhabited α] : List α → Nat → List α → List α
  | q, i, [] => [q.getD i default]
  | q, i, r :: rs => q.getD i default :: drainQueue (q.set i r) ((i + 1) % q.length) rs

/-- Model of `queued(values, qsize)`: eagerly fill a `qsize`-slot buffer from
the upstream, then cycle over the slots, yielding each slot's value and
refilling it, breaking at the first failed refill.  If the upstream holds fewer
than `qsize` elements, the `next(it)` in the fill loop raises `StopIteration`
inside the generator body, which surfaces as a `RuntimeError` (PEP 479) on the
first pull, with nothing yielded.  With `qsize = 0`, `cycle(range(0))` is empty
and the drain loop never runs. -/
def queued {α : Type} [Inhabited α] (values : List α) (qsize : Nat) : GenTrace α :=
  match fillQueue qsize values with
  | none => ([], some PyErr.runtimeStopIteration)
  | some (q, rest) =>
    if qsize = 0 then ([], none)
    else (drainQueue q 0 rest, none)

/-- Events observable while driving a pacing generator: a blocking sleep of a
given duration, or a yielded value. -/
inductive PyEvent (α : Type) : Type
  | sleep : ℚ → PyEvent α
  | emit : α → PyEvent α
deriving DecidableEq

/-- Model of `pre_delayed(values, delay)`:
`for v in values: sleep(delay); yield v` — the full event trace, with the
sleep before each yield. -/
def pre_delayed {α : Type} (values : List α) (delay : ℚ) : List (PyEvent α) :=
  match values with
  | [] => []
  | v :: vs => PyEvent.sleep delay :: PyEvent.emit v :: pre_delayed vs delay

/-- Model of `post_delayed(values, delay)`:
`for v in values: yield v; sleep(delay)` — the full event trace, with the
sleep after each yield. -/
def post_delayed {α : Type} (values : List α) (delay : ℚ) : List (PyEvent α) :=
  match values with
  | [] => []
  | v :: vs => PyEvent.emit v :: PyEvent.sleep delay :: post_delayed vs delay

/-- Values yielded in an event trace, in order, stripped of the sleeps. -/
def emitted {α : Type} (events : List (PyEvent α)) : List α :=
  events.filterMap (fun e =>
    match e with
    | PyEvent.emit v => some v
    | PyEvent.sleep _ => none)

/-! ### Helper lemmas about the embedded combinators -/

theorem fillQueue_eq_take_drop {α : Type} (n : Nat) :
    ∀ l : List α, n ≤ l.length → fillQueue n l = some (l.take n, l.drop n) := by
  induction n with
  | zero => intro l _; simp [fillQueue]
  | succ n ih =>
    intro l h
    cases l with
    | nil => simp at h
    | cons v vs =>
      have h2 : n ≤ vs.length := by simpa using h
      simp [fillQueue, ih vs h2]

theorem fillQueue_eq_none {α : Type} (n : Nat) :
    ∀ l : List α, l.length < n → fillQueue n l = none := by
  induction n with
  | zero => intro l h; exact absurd h (Nat.not_lt_zero _)
  | succ n ih =>
    intro l h
    cases l with
    | nil => rfl
    | cons v vs =>
      have h2 : vs.length < n := by simpa using h
      simp [fillQueue, ih vs h2]

theorem ringStep {α : Type} (q : List α) (i : Nat) (r : α) (h : i < q.length) :
    (q.set i r).drop ((i + 1) % q.length) ++ (q.set i r).take ((i + 1) % q.length) =
      q.drop (i + 1) ++ (q.take i ++ [r]) := by
  have hset : q.set i r = q.take i ++ r :: q.drop (i + 1) := List.set_eq_take_cons_drop r h
  have htl : (q.take i).length = i := by rw [List.length_take]; omega
  rcases Nat.lt_or_ge (i + 1) q.length with hlt | hge
  · rw [Nat.mod_eq_of_lt hlt, hset]
    rw [show i + 1 = (q.take i).length + 1 by omega]
    rw [List.drop_append, List.take_append]
    simp
  · have heq : i + 1 = q.length := by omega
    rw [heq, Nat.mod_self]
    simp only [List.drop_zero, List.take_zero, List.append_nil]
    rw [hset, heq, List.drop_length]
    simp

theorem drainQueue_eq {α : Type} [Inhabited α] :
    ∀ (rest q : List α) (i : Nat), i < q.length →
      drainQueue q i rest = ((q.drop i ++ q.take i) ++ rest).take (rest.length + 1) := by
  intro rest
  induction rest with
  | nil =>
    intro q i h
    simp only [drainQueue, List.getD_eq_getElem q default h, List.append_nil,
      List.length_nil]
    rw [List.drop_eq_getElem_cons h, List.cons_append, List.take_succ_cons, List.take_zero]
  | cons r rs ih =>
    intro q i h
    have hq : 0 < q.length := Nat.lt_of_le_of_lt (Nat.zero_le i) h
    have hj : (i + 1) % q.length < q.length := Nat.mod_lt _ hq
    have hj2 : (i + 1) % q.length < (q.set i r).length := by
      rw [List.length_set]; exact hj
    simp only [drainQueue]
    rw [ih (q.set i r) ((i + 1) % q.length) hj2]
    rw [ringStep q i r h]
    rw [List.getD_eq_getElem q default h]
    simp only [List.length_cons, List.append_assoc, List.singleton_append]
    rw [List.drop_eq_getElem_cons h, List.cons_append, List.take_succ_cons]

theorem queued_eq_take {α : Type} [Inhabited α] (values : List α) (qsize : Nat)
    (h1 : 0 < qsize) (h2 : qsize ≤ values.length) :
    queued values qsize = (values.take (values.length - qsize + 1), none) := by
  have hfill := fillQueue_eq_take_drop qsize values h2
  have hlen : (values.take qsize).length = qsize := by rw [List.length_take]; omega
  have h0 : 0 < (values.take qsize).length := by omega
  simp only [queued, hfill]
  rw [if_neg (by omega)]
  rw [drainQueue_eq (values.drop qsize) (values.take qsize) 0 h0]
  simp only [List.drop_zero, List.take_zero, List.append_nil, List.take_append_drop,
    List.length_drop]

theorem scaled_of_ne (values : List ℚ) (range_min range_max : ℚ)
    {domain_min domain_max : ℚ} (h : domain_max ≠ domain_min) :
    scaled values range_min range_max domain_min domain_max =
      (values.map (fun v =>
        ((v - domain_min) / (domain_max - domain_min)) * (range_max - range_min)
          + range_min), none) := by
  simp [scaled, sub_ne_zero.mpr h]

theorem zipNAux_length {α : Type} [Inhabited α] (n : Nat) :
    ∀ ls : List (List α), (zipNAux n ls).length = n := by
  induction n with
  | zero => intro ls; rfl
  | succ n ih => intro ls; simp [zipNAux, ih]

theorem foldl_min_le_init {α : Type} :
    ∀ (ls : List (List α)) (a : Nat), ls.foldl (fun m x => min m x.length) a ≤ a := by
  intro ls
  induction ls with
  | nil => intro a; exact le_refl a
  | cons x ls ih => intro a; exact le_trans (ih (min a x.length)) (min_le_left _ _)

theorem foldl_min_le_mem {α : Type} :
    ∀ (ls : List (List α)) (a : Nat) (x : List α), x ∈ ls →
      ls.foldl (fun m y => min m y.length) a ≤ x.length := by
  intro ls
  induction ls with
  | nil => intro a x hx; exact absurd hx (List.not_mem_nil x)
  | cons y ls ih =>
    intro a x hx
    rcases List.mem_cons.mp hx with h1 | h1
    · subst h1
      exact le_trans (foldl_min_le_init ls (min a x.length)) (min_le_right _ _)
    · exact ih (min a y.length) x h1

theorem foldl_min_attained {α : Type} :
    ∀ (ls : List (List α)) (a : Nat),
      ls.foldl (fun m y => min m y.length) a = a ∨
        ∃ x ∈ ls, ls.foldl (fun m y => min m y.length) a = x.length := by
  intro ls
  induction ls with
  | nil => intro a; left; rfl
  | cons y ls ih =>
    intro a
    rcases ih (min a y.length) with h | h
    · rcases le_total a y.length with hle | hle
      · left; exact h.trans (min_eq_left hle)
      · right; exact ⟨y, List.mem_cons_self y ls, h.trans (min_eq_right hle)⟩
    · rcases h with ⟨x, hx, hfx⟩
      exact Or.inr ⟨x, List.mem_cons_of_mem y hx, hfx⟩

theorem shortestLen_le_of_mem {α : Type} {ls : List (List α)} {l : List α} (h : l ∈ ls) :
    shortestLen ls ≤ l.length := by
  cases ls with
  | nil => exact absurd h (List.not_mem_nil l)
  | cons x ls =>
    rcases List.mem_cons.mp h with h1 | h1
    · subst h1; exact foldl_min_le_init ls l.length
    · exact foldl_min_le_mem ls x.length l h1

theorem shortestLen_attained {α : Type} {ls : List (List α)} (h : ls ≠ []) :
    ∃ l ∈ ls, l.length = shortestLen ls := by
  cases ls with
  | nil => exact absurd rfl h
  | cons x ls =>
    rcases foldl_min_attained ls x.length with h1 | h1
    · exact ⟨x, List.mem_cons_self x ls, h1.symm⟩
    · rcases h1 with ⟨y, hy, hfy⟩
      exact ⟨y, List.mem_cons_of_mem x hy, hfy.symm⟩

/-- Claim C1: for `queued(values, qsize)`, after eagerly filling the buffer with the
first `qsize` upstream elements, the output terminates immediately at the first failed
upstream refill: the value already yielded in that step stands, the remaining buffered
slots are dropped (the run yields `length - qsize + 1` values, not a full drain), and
the run ends without error; in particular `queued` on the sequence 1..5 with
`qsize = 2` yields exactly 1, 2, 3, 4. -/
theorem queued_terminates_at_first_failed_refill :
    (∀ (values : List ℚ) (qsize : Nat), 0 < qsize → qsize ≤ values.length →
      (queued values qsize).1.length = values.length - qsize + 1 ∧
      (queued values qsize).2 = none) ∧
    queued ([1, 2, 3, 4, 5] : List ℚ) 2 = ([1, 2, 3, 4], none) := by
  constructor
  · intro values qsize h1 h2
    rw [queued_eq_take values qsize h1 h2]
    refine ⟨?_, rfl⟩
    show (values.take (values.length - qsize + 1)).length = values.length - qsize + 1
    rw [List.length_take]
    exact min_eq_left (by omega)
  · decide

theorem queued_terminates_at_first_failed_refill_witness :
    (queued ([5, 6, 7] : List ℚ) 2).1.length = 2 ∧
    (queued ([5, 6, 7] : List ℚ) 2).2 = none :=
  queued_terminates_at_first_failed_refill.1 [5, 6, 7] 2 (by decide) (by decide)

/-- Claim C2, counterexample: with only one upstream element and `qsize = 2`, invoking
`queued` succeeds (`Except.ok`: a generator function runs no body code at call time),
so no hard failure surfaces at setup/construction time; instead the run trace carries a
runtime error raised at the first pull, with nothing yielded — the opposite of what the
claim states on both points. -/
theorem queued_short_upstream_constructs_ok :
    genCall (queued ([1] : List ℚ) 2) = Except.ok ([], some PyErr.runtimeStopIteration) := rfl

/-- Claim C2, amended: for every upstream sequence with fewer than `qsize` elements,
construction of `queued(values, qsize)` succeeds, and the failure surfaces as a runtime
error on the first pull (`StopIteration` escaping the fill loop, a `RuntimeError` under
PEP 479), with no values yielded. -/
theorem queued_underflow_runtime_error_on_first_pull (values : List ℚ) (qsize : Nat)
    (h : values.length < qsize) :
    genCall (queued values qsize) = Except.ok ([], some PyErr.runtimeStopIteration) := by
  simp [genCall, queued, fillQueue_eq_none qsize values h]

theorem queued_underflow_runtime_error_on_first_pull_witness :
    genCall (queued ([1, 2] : List ℚ) 5) =
      Except.ok ([], some PyErr.runtimeStopIteration) :=
  queued_underflow_runtime_error_on_first_pull [1, 2] 5 (by decide)

/-- Claim C3, counterexample: invoking `scaled` with `domain_max == domain_min`
(domain `[5, 5]`) succeeds (`Except.ok`: generator construction runs no body code), and
on an empty upstream the entire run produces no error at all — so no domain error is
raised at the moment the combinator is constructed/invoked. -/
theorem scaled_degenerate_domain_invocation_no_error :
    genCall (scaled [] 0 1 5 5) = Except.ok ([], none) := by
  norm_num [genCall, scaled]

/-- Claim C3, amended: when `domain_max == domain_min`, `scaled` constructs
successfully and defers the failure to the first pull: with a non-empty upstream the
first pull raises `ZeroDivisionError` before anything is yielded, and with an empty
upstream no error ever occurs. -/
theorem scaled_degenerate_domain_defers_to_first_pull (values : List ℚ)
    (range_min range_max d : ℚ) :
    genCall (scaled values range_min range_max d d) =
      Except.ok (match values with
        | [] => ([], none)
        | _ :: _ => ([], some PyErr.zeroDivision)) := by
  cases values <;> simp [genCall, scaled]

/-- Claim C4, counterexample: `conjunction` invoked with zero input sequences does not
fail with an invalid-argument error; `zip()` of no sequences is empty, so the run
silently yields nothing and ends without error. -/
theorem conjunction_zero_inputs_silently_empty : conjunction [] = ([], none) := rfl

/-- Claim C4, amended: each of `conjunction`, `disjunction` and `averaged`, when
invoked with zero input sequences, silently produces an empty output sequence with no
error (no invalid-argument validation exists in the code). -/
theorem zero_input_aggregation_yields_empty :
    conjunction [] = ([], none) ∧ disjunction [] = ([], none) ∧ averaged [] = ([], none) :=
  ⟨rfl, rfl, rfl⟩

/-- Claim C5: for every non-empty family of input sequences, the zipping combinators
`conjunction`, `disjunction` and `averaged` produce an output whose length equals the
length of the shortest input sequence (`shortestLen` is a lower bound of the member
lengths and is attained by some member), terminating as soon as any single input is
exhausted; in particular, with inputs of length 3 and length 5, exactly 3 outputs are
produced. -/
theorem zipping_stops_at_shortest_input :
    (∀ (bools : List (List Bool)) (nums : List (List ℚ)),
      bools ≠ [] → nums ≠ [] →
      ((conjunction bools).1.length = shortestLen bools ∧
        (disjunction bools).1.length = shortestLen bools ∧
        (averaged nums).1.length = shortestLen nums) ∧
      ((∀ l ∈ bools, shortestLen bools ≤ l.length) ∧
        (∃ l ∈ bools, l.length = shortestLen bools)) ∧
      ((∀ l ∈ nums, shortestLen nums ≤ l.length) ∧
        (∃ l ∈ nums, l.length = shortestLen nums))) ∧
    (conjunction [[true, true, false], [true, false, false, true, true]]).1.length = 3 ∧
    (averaged [[1, 2, 3], [4, 5, 6, 7, 8]]).1.length = 3 := by
  refine ⟨?_, ?_, ?_⟩
  · intro bools nums hb hn
    refine ⟨⟨?_, ?_, ?_⟩,
      ⟨fun l hl => shortestLen_le_of_mem hl, shortestLen_attained hb⟩,
      fun l hl => shortestLen_le_of_mem hl, shortestLen_attained hn⟩
    · simp [conjunction, zipN, zipNAux_length]
    · simp [disjunction, zipN, zipNAux_length]
    · simp [averaged, zipN, zipNAux_length]
  · simp [conjunction, zipN, zipNAux_length]; rfl
  · simp [averaged, zipN, zipNAux_length]; rfl

theorem zipping_stops_at_shortest_input_witness :
    (((conjunction [[true], [false, true]]).1.length = shortestLen [[true], [false, true]] ∧
      (disjunction [[true], [false, true]]).1.length = shortestLen [[true], [false, true]] ∧
      (averaged [[1], [2, 3]]).1.length = shortestLen [[1], [2, 3]]) ∧
    ((∀ l ∈ [[true], [false, true]], shortestLen [[true], [false, true]] ≤ l.length) ∧
      (∃ l ∈ [[true], [false, true]], l.length = shortestLen [[true], [false, true]])) ∧
    ((∀ l ∈ [([1] : List ℚ), [2, 3]], shortestLen [([1] : List ℚ), [2, 3]] ≤ l.length) ∧
      (∃ l ∈ [([1] : List ℚ), [2, 3]], l.length = shortestLen [([1] : List ℚ), [2, 3]]))) :=
  zipping_stops_at_shortest_input.1 [[true], [false, true]] [[1], [2, 3]]
    (by decide) (by simp)

/-- Claim C6: `quantized(values, steps, range_min, range_max)` computes each output by
rescaling the input into `[0, 1]` per the `scaled` formula, applying floor-based
quantization (`level = floor(normalized * steps) / steps`; Python `int` truncation
coincides with floor on the nonnegative normalized values), and rescaling back into
`[range_min, range_max]`; in particular, for `steps = 4` and domain `[0, 1]`, input 1
yields exactly 1 (the top step, not 5/4) and input 0 yields exactly 0. -/
theorem quantized_floor_rescale :
    (∀ (values : List ℚ) (steps : ℤ) (range_min range_max : ℚ),
      range_min < range_max → 0 < steps →
      (∀ v ∈ values, range_min ≤ v ∧ v ≤ range_max) →
      quantized values steps range_min range_max =
        (values.map (fun v =>
          ((⌊((v - range_min) / (range_max - range_min)) * (steps : ℚ)⌋ : ℚ) / (steps : ℚ))
            * (range_max - range_min) + range_min), none)) ∧
    quantized [1, 0] 4 0 1 = ([1, 0], none) := by
  constructor
  · intro values steps rmin rmax h1 h2 h3
    have hne : rmax ≠ rmin := ne_of_gt h1
    simp only [quantized, scaled_of_ne values 0 1 hne]
    rw [if_neg (by rintro ⟨h0, _⟩; exact h2.ne' h0)]
    rw [List.map_map]
    refine congrArg (fun l => (l, none)) (List.map_congr_left ?_)
    intro v hv
    rcases h3 v hv with ⟨hv1, hv2⟩
    have hx : 0 ≤ (v - rmin) / (rmax - rmin) := div_nonneg (by linarith) (by linarith)
    have hs : (0 : ℚ) ≤ (steps : ℚ) := by exact_mod_cast h2.le
    simp only [Function.comp]
    rw [show ((v - rmin) / (rmax - rmin)) * (1 - 0) + 0 = (v - rmin) / (rmax - rmin) by ring]
    rw [pyInt, if_pos (mul_nonneg hx hs)]
  · simp only [quantized, scaled_of_ne [1, 0] 0 1 (show (1 : ℚ) ≠ 0 by norm_num)]
    norm_num [pyInt]

theorem quantized_floor_rescale_witness :
    quantized [1/2] 4 0 1 = ([1/2], none) := by
  have h := quantized_floor_rescale.1 [1/2] 4 0 1 (by norm_num) (by norm_num) (by norm_num)
  rw [h]
  norm_num

/-- Claim C7: for every input element and parameters with
`domain_max != domain_min`, `scaled` yields
`((input - domain_min) / (domain_max - domain_min)) * (range_max - range_min) + range_min`
elementwise and length-preservingly, ending without error; in particular
`scaled(xs, -1, 1)` with the default domain `[0, 1]` maps 0 to -1, 1/2 to 0 and
1 to 1. -/
theorem scaled_linear_rescaling :
    (∀ (values : List ℚ) (range_min range_max domain_min domain_max : ℚ),
      domain_max ≠ domain_min →
      scaled values range_min range_max domain_min domain_max =
        (values.map (fun v =>
          ((v - domain_min) / (domain_max - domain_min)) * (range_max - range_min)
            + range_min), none) ∧
      (scaled values range_min range_max domain_min domain_max).1.length = values.length) ∧
    scaled [0, 1/2, 1] (-1) 1 0 1 = ([-1, 0, 1], none) := by
  constructor
  · intro values rmin rmax dmin dmax h
    refine ⟨scaled_of_ne values rmin rmax h, ?_⟩
    rw [scaled_of_ne values rmin rmax h]
    simp
  · rw [scaled_of_ne _ _ _ (show (1 : ℚ) ≠ 0 by norm_num)]
    norm_num

theorem scaled_linear_rescaling_witness :
    scaled [2] 0 10 1 3 =
      ([2].map (fun v => ((v - 1) / (3 - 1)) * (10 - 0) + 0), none) ∧
    (scaled ([2] : List ℚ) 0 10 1 3).1.length = 1 :=
  scaled_linear_rescaling.1 [2] 0 10 1 3 (by norm_num)

/-- Claim C8: for every numeric sequence with all elements in `[0, 1]`, `inverted`
yields `1 - x` for each element `x`, and composing `inverted` with itself reproduces
the original sequence exactly. -/
theorem inverted_complement_involution (xs : List ℚ)
    (h : ∀ x ∈ xs, 0 ≤ x ∧ x ≤ 1) :
    (inverted xs).1 = xs.map (fun x => 1 - x) ∧
    (inverted (inverted xs).1).1 = xs := by
  refine ⟨rfl, ?_⟩
  show List.map (fun v => 1 - v) (List.map (fun v => 1 - v) xs) = xs
  rw [List.map_map]
  have hcomp : ∀ x ∈ xs, ((fun v => 1 - v) ∘ fun v => (1 : ℚ) - v) x = id x := by
    intro x hx
    simp
  rw [List.map_congr_left hcomp, List.map_id]

theorem inverted_complement_involution_witness :
    (inverted [0, 1/2, 1]).1 = [0, 1/2, 1].map (fun x => (1 : ℚ) - x) ∧
    (inverted (inverted [0, 1/2, 1]).1).1 = [0, 1/2, 1] :=
  inverted_complement_involution [0, 1/2, 1] (by norm_num)

theorem emitted_pre_delayed {α : Type} (delay : ℚ) :
    ∀ values : List α, emitted (pre_delayed values delay) = values := by
  intro values
  induction values with
  | nil => rfl
  | cons v vs ih =>
    simp only [pre_delayed, emitted, List.filterMap_cons] at ih ⊢
    rw [ih]

theorem emitted_post_delayed {α : Type} (delay : ℚ) :
    ∀ values : List α, emitted (post_delayed values delay) = values := by
  intro values
  induction values with
  | nil => rfl
  | cons v vs ih =>
    simp only [post_delayed, emitted, List.filterMap_cons] at ih ⊢
    rw [ih]

/-- Claim C9: for every upstream sequence and every delay, `pre_delayed` and
`post_delayed` yield exactly the upstream values, in the same order, terminating
exactly when the upstream terminates; their event traces differ from the upstream only
by the interleaved sleeps. -/
theorem delayed_combinators_preserve_values {α : Type} (values : List α) (delay : ℚ) :
    emitted (pre_delayed values delay) = values ∧
    emitted (post_delayed values delay) = values :=
  ⟨emitted_pre_delayed delay values, emitted_post_delayed delay values⟩

/-- Claim C10: for every finite upstream sequence of length `L` and positive `qsize`
with `L >= qsize`, `queued(values, qsize)` yields exactly the first `L - qsize + 1`
elements of the upstream, in upstream order: the ring buffer never reorders, duplicates
or skips within the yielded initial segment. -/
theorem queued_yields_initial_segment (values : List ℚ) (qsize : Nat)
    (h1 : 0 < qsize) (h2 : qsize ≤ values.length) :
    queued values qsize = (values.take (values.length - qsize + 1), none) :=
  queued_eq_take values qsize h1 h2

theorem queued_yields_initial_segment_witness :
    queued ([10, 20, 30, 40, 50] : List ℚ) 3 = ([10, 20, 30], none) :=
  queued_yields_initial_segment [10, 20, 30, 40, 50] 3 (by decide) (by decide)
